import Mathlib

/- Shallow embedding of the venue equipment standardization pipeline:
   src/data_standardizer.py (field, category, type and specification
   normalizers, the duplicate merge and the validator),
   src/data_extractor.py (the pre-standardization deduplication pass) and
   src/config.py (the taxonomy reference data).

   Modelling conventions:
   - Python str values are Lean String; the inputs exercised here are ASCII,
     so Python's str.lower / str.title / regex \w and \s classes are modelled
     with their ASCII semantics.
   - Python int is Int, Python float is the exact rational Q.  The float
     formatting used by the source (repr of a float, the .1f format) is
     modelled for exact decimal values, which covers every value the source
     produces on the inputs considered here.
   - Python dicts (specification maps, the merge accumulators) are modelled
     as insertion-ordered association lists, matching dict semantics since
     Python 3.7: update-in-place keeps the position of an existing key, a
     new key is appended.
   - The fuzzywuzzy scorer fuzz.ratio is modelled as
     round(100 * 2 * LCS(a,b) / (len a + len b)), the Levenshtein-based
     ratio (insert/delete cost 1, substitute cost 2).  Rounding is modelled
     as round-half-up; the development never evaluates the scorer at an
     exact half.  process.extractOne preprocesses query and choices with
     utils.full_process (lowercase, non-alphanumeric chars become spaces,
     strip) and returns the first choice of maximal score, which is also
     modelled here. -/

/-! ## Python string primitives (ASCII) -/

/-- Python whitespace class \s over ASCII. -/
def pyIsSpace (c : Char) : Bool :=
  c = ' ' || c = '\t' || c = '\n' || c = '\r' || c.val = 11 || c.val = 12

/-- Regex word class \w over ASCII. -/
def isWordChar (c : Char) : Bool := c.isAlphanum || c = '_'

/-- Lowercase a character list (Python str.lower over ASCII). -/
def lowerL (s : List Char) : List Char := s.map Char.toLower

/-- Python str.strip: drop whitespace from both ends. -/
def stripL (s : List Char) : List Char :=
  ((s.dropWhile pyIsSpace).reverse.dropWhile pyIsSpace).reverse

/-- Helper for titleL carrying whether the previous char was alphabetic. -/
def titleAux : Bool → List Char → List Char
  | _, [] => []
  | prevAlpha, c :: cs =>
    if c.isAlpha then
      (if prevAlpha then c.toLower else c.toUpper) :: titleAux true cs
    else c :: titleAux false cs

/-- Python str.title: the first letter of every run of letters is uppercased,
the rest lowercased; non-letters pass through and reset the run. -/
def titleL (s : List Char) : List Char := titleAux false s

def toLowerStr (s : String) : String := String.mk (lowerL s.data)
def stripStr (s : String) : String := String.mk (stripL s.data)
def titleStr (s : String) : String := String.mk (titleL s.data)

/-- Does the first list start with the second (the pattern)? -/
def startsWithL : List Char → List Char → Bool
  | _, [] => true
  | [], _ :: _ => false
  | c :: cs, d :: ds => c = d && startsWithL cs ds

/-- Case-insensitive head match of a pattern (the pattern is lowercase). -/
def ciStarts (s pat : List Char) : Bool := startsWithL (lowerL s) pat

/-- Python substring containment (the in operator): pat occurs contiguously. -/
def hasSub (pat : List Char) : List Char → Bool
  | [] => pat.isEmpty
  | c :: cs => startsWithL (c :: cs) pat || hasSub pat cs

/-- Helper for collapseRuns carrying whether we are inside a matching run. -/
def collapseRunsAux (p : Char → Bool) (repl : Char) : Bool → List Char → List Char
  | _, [] => []
  | inRun, c :: cs =>
    if p c then
      if inRun then collapseRunsAux p repl true cs
      else repl :: collapseRunsAux p repl true cs
    else c :: collapseRunsAux p repl false cs

/-- Replace every maximal run of characters matching p by the single
character repl (models re.sub of a one-class-plus pattern). -/
def collapseRuns (p : Char → Bool) (repl : Char) (s : List Char) : List Char :=
  collapseRunsAux p repl false s

/-- Word-boundary match at the head of s: the first word of ws (regex
alternation order) that starts s, with a word boundary on both sides.
All listed words start and end with word characters, so the left boundary
holds iff the previous character was not a word character. -/
def wordAtBoundary (ws : List (List Char)) (prevWord : Bool) (s : List Char) :
    Option (List Char × List Char) :=
  ws.findSome? fun w =>
    if !prevWord && startsWithL s w &&
       (match s.drop w.length with
        | [] => true
        | d :: _ => !isWordChar d) then
      some (w, s.drop w.length)
    else none

/-- Fuel-indexed scan deleting boundary-delimited occurrences of the words
in ws, left to right and non-overlapping, as re.sub with empty replacement
does.  Each step consumes at least one character, so fuel = length of the
input suffices. -/
def removeWordsAux (ws : List (List Char)) : Nat → Bool → List Char → List Char
  | 0, _, s => s
  | _ + 1, _, [] => []
  | fuel + 1, prevWord, c :: cs =>
    match wordAtBoundary ws prevWord (c :: cs) with
    | some (_, rest) => removeWordsAux ws fuel true rest
    | none => c :: removeWordsAux ws fuel (isWordChar c) cs

/-- Models re.sub of a word-boundary alternation of literal words with the
empty replacement. -/
def removeWords (ws : List (List Char)) (s : List Char) : List Char :=
  removeWordsAux ws s.length false s

/-! ## The fuzzy scorer (fuzzywuzzy fuzz.ratio with process.extractOne) -/

/-- One dynamic-programming row step for the longest common subsequence.
The previous row is prevDiag :: prevRest; cur is the entry just computed to
the left in the new row. -/
def lcsStep (x : Char) : List Char → List Nat → Nat → List Nat
  | y :: ys, pd :: pr, cur =>
    let v := if x = y then pd + 1 else Nat.max cur (pr.headD 0)
    v :: lcsStep x ys pr v
  | _, _, _ => []

/-- Length of the longest common subsequence, row-by-row DP. -/
def lcsLen (xs ys : List Char) : Nat :=
  (xs.foldl (fun row x => 0 :: lcsStep x ys row 0)
    (List.replicate (ys.length + 1) 0)).getLastD 0

/-- The fuzz.ratio score on a 0..100 scale: round(100 * 2L / (m+n)) where L
is the LCS length (the Levenshtein-based ratio with substitution cost 2).
Both empty strings score 100. -/
def ratio100 (a b : List Char) : Nat :=
  let d := a.length + b.length
  if d = 0 then 100
  else (400 * lcsLen a b + d) / (2 * d)

/-- fuzzywuzzy utils.full_process: lowercase, replace each non-alphanumeric
character by a space, strip. -/
def fullProcess (s : String) : String :=
  String.mk (stripL (s.data.map fun c => if c.isAlphanum then c.toLower else ' '))

/-- process.extractOne(query, choices, scorer=fuzz.ratio): both sides are
preprocessed with full_process, every choice is scored, and the first
choice of maximal score is returned together with its score. -/
def bestMatch (query : String) (choices : List String) : Option (String × Nat) :=
  let pq := fullProcess query
  (choices.map fun c => (c, ratio100 pq.data (fullProcess c).data)).foldl
    (fun acc p =>
      match acc with
      | none => some p
      | some q => if p.2 > q.2 then some p else some q) none

/-! ## Taxonomy reference data (src/config.py) -/

/-- MANUFACTURER_MAPPINGS from src/config.py, in declaration order. -/
def MANUFACTURER_MAPPINGS : List (String × List String) := [
  ("shure", ["shure", "shure inc", "shure incorporated"]),
  ("yamaha", ["yamaha", "yamaha corporation", "yamaha music"]),
  ("qsc", ["qsc", "qsc audio", "qsc llc"]),
  ("jbl", ["jbl", "jbl professional", "harman jbl"]),
  ("martin", ["martin", "martin professional", "martin lighting"]),
  ("chamsys", ["chamsys", "chamsys ltd"]),
  ("etc", ["etc", "electronic theatre controls", "electronic theater controls"]),
  ("sony", ["sony", "sony corporation", "sony professional"]),
  ("panasonic", ["panasonic", "panasonic corporation"]),
  ("barco", ["barco", "barco nv"]),
  ("christie", ["christie", "christie digital"]),
  ("epson", ["epson", "seiko epson"]),
  ("avolites", ["avolites", "avolites ltd"]),
  ("robe", ["robe", "robe lighting"]),
  ("clay paky", ["clay paky", "claypaky", "clay-paky"])]

/-- DataStandardizer._build_manufacturer_variations: every alias lowercased. -/
def manufacturer_variations : List (String × List String) :=
  MANUFACTURER_MAPPINGS.map fun p => (p.1, p.2.map toLowerStr)

/-- EQUIPMENT_CATEGORIES from src/config.py, in declaration order. -/
def EQUIPMENT_CATEGORIES : List (String × List String) := [
  ("lighting",
   ["light", "lighting", "led", "fixture", "dimmer", "console", "spotlight",
    "floodlight", "par", "fresnel", "moving head", "wash", "beam", "strobe",
    "haze", "fog", "smoke", "gobo", "color changer", "scroller"]),
  ("sound",
   ["audio", "sound", "speaker", "microphone", "mic", "mixer", "amplifier",
    "amp", "subwoofer", "monitor", "pa", "system", "wireless", "di box",
    "compressor", "equalizer", "reverb", "delay", "console", "board"]),
  ("video",
   ["video", "projector", "screen", "display", "monitor", "camera", "switcher",
    "scaler", "converter", "splitter", "matrix", "recorder", "player",
    "led wall", "panel", "processor", "hdmi", "sdi", "streaming"])]

/-- The standardizer's category set (the keys of EQUIPMENT_CATEGORIES).
The source stores them in a Python set and only tests membership with it;
the fuzzy fallback of the category normalizer iterates list(set(...)), whose
order is modelled as the declaration order. -/
def standardized_categories : List String := EQUIPMENT_CATEGORIES.map Prod.fst

/-- Lighting entries of DataStandardizer._build_equipment_type_mappings. -/
def lightingTypes : List (String × String) := [
  ("led fixture", "LED Fixture"), ("led light", "LED Fixture"),
  ("moving head", "Moving Head"), ("moving light", "Moving Head"),
  ("par can", "PAR Can"), ("par light", "PAR Can"),
  ("spotlight", "Spotlight"), ("floodlight", "Floodlight"),
  ("fresnel", "Fresnel"), ("wash light", "Wash Light"),
  ("beam light", "Beam Light"), ("strobe", "Strobe"),
  ("dimmer", "Dimmer"), ("lighting console", "Lighting Console"),
  ("dmx controller", "DMX Controller")]

/-- Sound entries of DataStandardizer._build_equipment_type_mappings. -/
def soundTypes : List (String × String) := [
  ("speaker", "Speaker"), ("loudspeaker", "Speaker"),
  ("microphone", "Microphone"), ("mic", "Microphone"),
  ("wireless microphone", "Wireless Microphone"),
  ("wireless mic", "Wireless Microphone"),
  ("mixer", "Audio Mixer"), ("mixing console", "Audio Mixer"),
  ("amplifier", "Amplifier"), ("power amplifier", "Power Amplifier"),
  ("subwoofer", "Subwoofer"), ("monitor", "Monitor Speaker"),
  ("di box", "DI Box"), ("compressor", "Compressor"),
  ("equalizer", "Equalizer"), ("reverb", "Reverb Unit")]

/-- Video entries of DataStandardizer._build_equipment_type_mappings. -/
def videoTypes : List (String × String) := [
  ("projector", "Projector"), ("lcd projector", "LCD Projector"),
  ("led projector", "LED Projector"), ("screen", "Projection Screen"),
  ("projection screen", "Projection Screen"), ("display", "Display"),
  ("monitor", "Video Monitor"), ("led wall", "LED Wall"),
  ("led panel", "LED Panel"), ("camera", "Camera"),
  ("video camera", "Video Camera"), ("switcher", "Video Switcher"),
  ("video mixer", "Video Switcher"), ("scaler", "Video Scaler"),
  ("converter", "Video Converter"), ("splitter", "Video Splitter"),
  ("matrix", "Video Matrix")]

/-- DataStandardizer._build_equipment_type_mappings. -/
def equipment_type_mappings : List (String × List (String × String)) :=
  [("lighting", lightingTypes), ("sound", soundTypes), ("video", videoTypes)]

/-- First-match association lookup (Python dict membership plus indexing). -/
def assocFind {α : Type} (k : String) : List (String × α) → Option α
  | [] => none
  | (k', v) :: rest => if k' = k then some v else assocFind k rest

/-! ## Field Normalizer (src/data_standardizer.py lines 121-213) -/

/-- The direct alias scan of _standardize_manufacturer: the first canonical
entry whose variation list contains the cleaned name. -/
def mfrAliasLookup (clean : String) : Option String :=
  manufacturer_variations.findSome? fun p =>
    if p.2.contains clean then some p.1 else none

/-- The corporate-suffix words removed by _standardize_manufacturer, in the
regex alternation order. -/
def corporateTokens : List (List Char) :=
  [String.data "inc", String.data "incorporated", String.data "corp",
   String.data "corporation", String.data "ltd", String.data "limited",
   String.data "llc"]

/-- Cleanup branch of _standardize_manufacturer: strip corporate suffixes
(word-boundary delimited), drop characters outside \w and \s, strip, then
title-case, with the sentinel Unknown for an empty remainder. -/
def mfrCleanup (clean : String) : String :=
  let c2 := stripL ((removeWords corporateTokens clean.data).filter
    fun c => isWordChar c || pyIsSpace c)
  if c2 = [] then "Unknown" else String.mk (titleL c2)

/-- DataStandardizer._standardize_manufacturer. -/
def standardize_manufacturer (manufacturer : String) : String :=
  if manufacturer = "" then "Unknown"
  else
    match mfrAliasLookup (toLowerStr (stripStr manufacturer)) with
    | some name => titleStr name
    | none =>
      match bestMatch (toLowerStr (stripStr manufacturer))
          (manufacturer_variations.map Prod.fst) with
      | some (name, score) =>
        if 80 ≤ score then titleStr name
        else mfrCleanup (toLowerStr (stripStr manufacturer))
      | none => mfrCleanup (toLowerStr (stripStr manufacturer))

/-- Leading token strip of _standardize_model: re.sub of the anchored,
case-insensitive alternation of a model or mod word followed by whitespace,
tried in that order, the whitespace run taken greedily. -/
def dropModelToken (s : List Char) : List Char :=
  if startsWithL (lowerL s) (String.data "model") &&
     (match s.drop 5 with | c :: _ => pyIsSpace c | [] => false) then
    (s.drop 5).dropWhile pyIsSpace
  else if startsWithL (lowerL s) (String.data "mod") &&
     (match s.drop 3 with | c :: _ => pyIsSpace c | [] => false) then
    (s.drop 3).dropWhile pyIsSpace
  else s

/-- Trailing token strip of _standardize_model: re.sub of the end-anchored,
case-insensitive whitespace-plus-series-or-ser suffix.  A dollar-anchored
match is a suffix, so it is recognized on the reversed list. -/
def dropSeriesToken (s : List Char) : List Char :=
  let r := s.reverse
  if startsWithL (lowerL r) (String.data "seires") &&
     (match r.drop 6 with | c :: _ => pyIsSpace c | [] => false) then
    ((r.drop 6).dropWhile pyIsSpace).reverse
  else if startsWithL (lowerL r) (String.data "res") &&
     (match r.drop 3 with | c :: _ => pyIsSpace c | [] => false) then
    ((r.drop 3).dropWhile pyIsSpace).reverse
  else s

/-- DataStandardizer._standardize_model.  Note the source tests truthiness
before the final strip, so a result that is all whitespace is returned as
the empty string after stripping, not as Unknown. -/
def standardize_model (model : String) : String :=
  if model = "" then "Unknown"
  else
    let m2 := dropSeriesToken (dropModelToken (stripL model.data))
    let m4 := (collapseRuns pyIsSpace ' ' m2).filter
      fun c => isWordChar c || pyIsSpace c || c = '-' || c = '/'
    if m4 = [] then "Unknown" else String.mk (stripL m4)

/-- DataStandardizer._infer_category_from_type: the first category in
declaration order with a keyword occurring as a substring of the lowercased
type. -/
def infer_category_from_type (equipment_type : String) : Option String :=
  EQUIPMENT_CATEGORIES.findSome? fun p =>
    if p.2.any (fun kw => hasSub kw.data (toLowerStr equipment_type).data)
    then some p.1 else none

/-- DataStandardizer._standardize_category: direct set membership, then
keyword inference from the equipment type when that is nonempty, then the
fuzzy fallback with threshold 70, else the sentinel other. -/
def standardize_category (category equipment_type : String) : String :=
  if standardized_categories.contains (toLowerStr (stripStr category)) then
    toLowerStr (stripStr category)
  else
    match (if equipment_type ≠ "" then infer_category_from_type equipment_type
           else none) with
    | some c => c
    | none =>
      match bestMatch (toLowerStr (stripStr category)) standardized_categories with
      | some (name, score) => if 70 ≤ score then name else "other"
      | none => "other"

/-- The generic words stripped by the equipment-type cleanup. -/
def genericTypeTokens : List (List Char) :=
  [String.data "system", String.data "device", String.data "unit",
   String.data "equipment"]

/-- Cleanup branch of _standardize_equipment_type: remove generic words,
replace characters outside \w and \s by spaces, collapse whitespace, strip
and title-case, with the sentinel Unknown for an empty remainder. -/
def typeCleanup (clean : String) : String :=
  let t3 := stripL (collapseRuns pyIsSpace ' '
    ((removeWords genericTypeTokens clean.data).map
      fun c => if isWordChar c || pyIsSpace c then c else ' '))
  if t3 = [] then "Unknown" else String.mk (titleL t3)

/-- The direct per-category alias lookup inside _standardize_equipment_type
(dict membership of the category, then of the cleaned type). -/
def typeDirectLookup (category clean : String) : Option String :=
  match assocFind category equipment_type_mappings with
  | some m => assocFind clean m
  | none => none

/-- DataStandardizer._standardize_equipment_type.  The fuzzy branch indexes
the category map with the choice returned by extractOne, which is always a
key of that map; the getD default is unreachable and present for totality. -/
def standardize_equipment_type (equipment_type category : String) : String :=
  if equipment_type = "" then "Unknown"
  else
    match assocFind category equipment_type_mappings with
    | some m =>
      match assocFind (toLowerStr (stripStr equipment_type)) m with
      | some v => v
      | none =>
        match bestMatch (toLowerStr (stripStr equipment_type)) (m.map Prod.fst) with
        | some (k, score) =>
          if 75 ≤ score then
            (assocFind k m).getD (typeCleanup (toLowerStr (stripStr equipment_type)))
          else typeCleanup (toLowerStr (stripStr equipment_type))
        | none => typeCleanup (toLowerStr (stripStr equipment_type))
    | none => typeCleanup (toLowerStr (stripStr equipment_type))

/-! ## Rational arithmetic and float formatting -/

/-- Digit-list to natural number. -/
def digitsToNat (ds : List Char) : Nat :=
  ds.foldl (fun a c => 10 * a + (c.toNat - 48)) 0

/-- Value of a decimal literal with integer digits and fraction digits
(float(group) in the source, exact here).  Built with mkRat so that every
concrete computation reduces inside the kernel. -/
def decToRat (intDs fracDs : List Char) : ℚ :=
  mkRat (digitsToNat intDs * 10 ^ fracDs.length + digitsToNat fracDs)
    (10 ^ fracDs.length)

/-- Scale a rational by a natural factor (kernel-reducing product). -/
def ratScaleNat (q : ℚ) (n : Nat) : ℚ := mkRat (q.num * n) q.den

/-- Python max of two floats: the first argument when they are equal. -/
def pyMax (a b : ℚ) : ℚ := if Rat.blt a b then b else a

/-- Greedy digit span (regex \d+). -/
def spanDigits (s : List Char) : List Char × List Char :=
  (s.takeWhile Char.isDigit, s.dropWhile Char.isDigit)

/-- Natural number rendered with at least k digits (zero padded). -/
def natPad (k : Nat) (n : Nat) : String :=
  String.mk (List.replicate (k - (toString n).length) '0') ++ toString n

/-- Smallest exponent k up to 20 with q * 10^k integral. -/
def fracExp (q : ℚ) : Option Nat :=
  (List.range 21).find? fun k => (ratScaleNat q (10 ^ k)).den = 1

/-- Python repr of a float, modelled for exact decimal rationals: integral
values print with a trailing .0, other decimals with their minimal digits.
The final branch is never reached by the values this development evaluates. -/
def floatRepr (q : ℚ) : String :=
  let sign := if q.num < 0 then "-" else ""
  let a := if q.num < 0 then mkRat (-q.num) q.den else q
  match fracExp a with
  | some 0 => sign ++ toString a.num ++ ".0"
  | some k =>
    let n := (ratScaleNat a (10 ^ k)).num.toNat
    sign ++ toString (n / 10 ^ k) ++ "." ++ natPad k (n % 10 ^ k)
  | none => sign ++ toString a.num ++ " over " ++ toString a.den

/-- Round to the nearest integer, ties to even (Python round and the float
formatting both round half to even). -/
def roundHalfEven (q : ℚ) : ℤ :=
  let f := Int.fdiv q.num q.den
  let r := mkRat (q.num - f * q.den) q.den
  if Rat.blt r (mkRat 1 2) then f
  else if Rat.blt (mkRat 1 2) r then f + 1
  else if f % 2 = 0 then f else f + 1

/-- Python format .1f, modelled for exact decimal rationals. -/
def format1f (q : ℚ) : String :=
  let n := roundHalfEven (ratScaleNat q 10)
  let sign := if n < 0 then "-" else ""
  let m := n.natAbs
  sign ++ toString (m / 10) ++ "." ++ toString (m % 10)

/-- Python int() truncation toward zero of a rational. -/
def ratTrunc (q : ℚ) : ℤ := q.num / (q.den : ℤ)

/-! ## Specification Normalizer (src/data_standardizer.py lines 215-302) -/

/-- The key synonym table of _standardize_spec_key. -/
def key_mappings : List (String × List String) := [
  ("power", ["power", "wattage", "watts", "power consumption", "power draw"]),
  ("dimensions", ["dimensions", "size", "measurements", "dims"]),
  ("weight", ["weight", "mass"]),
  ("frequency_response", ["frequency response", "freq response", "frequency range"]),
  ("impedance", ["impedance", "ohms"]),
  ("spl", ["spl", "sound pressure level", "max spl"]),
  ("throw_distance", ["throw distance", "projection distance"]),
  ("resolution", ["resolution", "native resolution"]),
  ("brightness", ["brightness", "lumens", "ansi lumens"]),
  ("contrast_ratio", ["contrast ratio", "contrast"]),
  ("connectivity", ["connectivity", "connections", "inputs", "outputs"])]

/-- DataStandardizer._standardize_spec_key: the empty key maps to unknown;
otherwise lowercase and strip, look the result up in the synonym table, and
on a miss replace non-word non-space characters by underscores and
whitespace runs by single underscores. -/
def standardize_spec_key (key : String) : String :=
  if key = "" then "unknown"
  else
    match key_mappings.findSome? (fun p =>
        if p.2.contains (toLowerStr (stripStr key)) then some p.1 else none) with
    | some k => k
    | none =>
      String.mk (collapseRuns pyIsSpace '_'
        ((toLowerStr (stripStr key)).data.map
          fun c => if isWordChar c || pyIsSpace c then c else '_'))

/-- The power unit alternation (w|watts?|kw), case-insensitive, tried in
order.  The watts alternatives also begin with w, so the first alternative
subsumes them; they are kept for fidelity to the written pattern. -/
def powerUnitAt (s : List Char) : Option String :=
  if ciStarts s (String.data "w") then some "w"
  else if ciStarts s (String.data "watts") then some "watts"
  else if ciStarts s (String.data "watt") then some "watt"
  else if ciStarts s (String.data "kw") then some "kw"
  else none

/-- Attempt of the power regex at the head of s: digits, an optional greedy
fraction (retried without the fraction when the unit then fails, as regex
backtracking does), optional whitespace, then the unit.  Returns the value
already converted to watts: a unit starting with kw multiplies by 1000. -/
def tryPowerAt (s : List Char) : Option ℚ :=
  let (d1, r1) := spanDigits s
  if d1 = [] then none
  else
    let finish : ℚ → List Char → Option ℚ := fun q rest =>
      match powerUnitAt (rest.dropWhile pyIsSpace) with
      | some u => some (if u = "kw" then ratScaleNat q 1000 else q)
      | none => none
    let withFrac : Option ℚ :=
      match r1 with
      | '.' :: r2 =>
        let (d2, r3) := spanDigits r2
        if d2 = [] then none else finish (decToRat d1 d2) r3
      | _ => none
    match withFrac with
    | some q => some q
    | none => finish (decToRat d1 []) r1

/-- re.search of the power pattern: the attempt is made at every position,
left to right. -/
def searchPower : List Char → Option ℚ
  | [] => none
  | c :: cs =>
    match tryPowerAt (c :: cs) with
    | some q => some q
    | none => searchPower cs

/-- The weight unit alternation (kg|lbs?|pounds?), case-insensitive, the
optional s taken greedily. -/
def weightUnitAt (s : List Char) : Option String :=
  if ciStarts s (String.data "kg") then some "kg"
  else if ciStarts s (String.data "lbs") then some "lbs"
  else if ciStarts s (String.data "lb") then some "lb"
  else if ciStarts s (String.data "pounds") then some "pounds"
  else if ciStarts s (String.data "pound") then some "pound"
  else none

/-- Attempt of the weight regex at the head of s, returning the value in
kilograms: units starting with lb or pound multiply by 0.453592, which are
exactly the non-kg alternatives. -/
def tryWeightAt (s : List Char) : Option ℚ :=
  let (d1, r1) := spanDigits s
  if d1 = [] then none
  else
    let finish : ℚ → List Char → Option ℚ := fun q rest =>
      match weightUnitAt (rest.dropWhile pyIsSpace) with
      | some u => some (if u = "kg" then q
          else mkRat (q.num * 453592) (q.den * 1000000))
      | none => none
    let withFrac : Option ℚ :=
      match r1 with
      | '.' :: r2 =>
        let (d2, r3) := spanDigits r2
        if d2 = [] then none else finish (decToRat d1 d2) r3
      | _ => none
    match withFrac with
    | some q => some q
    | none => finish (decToRat d1 []) r1

/-- re.search of the weight pattern. -/
def searchWeight : List Char → Option ℚ
  | [] => none
  | c :: cs =>
    match tryWeightAt (c :: cs) with
    | some q => some q
    | none => searchWeight cs

/-- The upper-bound frequency unit alternation (khz?|hz), case-insensitive,
the optional z taken greedily. -/
def freqUnitAt (s : List Char) : Option String :=
  if ciStarts s (String.data "khz") then some "khz"
  else if ciStarts s (String.data "kh") then some "kh"
  else if ciStarts s (String.data "hz") then some "hz"
  else none

/-- Attempt of the frequency-response regex at the head of s: an integer,
optional whitespace, a required h with optional z, whitespace, a dash,
whitespace, a number with optional fraction, whitespace and the unit.
Returns the lower bound and the upper bound already scaled by 1000 when the
unit starts with k. -/
def tryFreqAt (s : List Char) : Option (Nat × ℚ) :=
  let (d1, r1) := spanDigits s
  if d1 = [] then none
  else
    let afterH : Option (List Char) :=
      match r1.dropWhile pyIsSpace with
      | c :: rest =>
        if c.toLower = 'h' then
          some (match rest with
                | z :: r => if z.toLower = 'z' then r else z :: r
                | [] => [])
        else none
      | [] => none
    match afterH with
    | none => none
    | some r2 =>
      match r2.dropWhile pyIsSpace with
      | '-' :: r3 =>
        let (d2, r5) := spanDigits (r3.dropWhile pyIsSpace)
        if d2 = [] then none
        else
          let finish : ℚ → List Char → Option (Nat × ℚ) := fun q rest =>
            match freqUnitAt (rest.dropWhile pyIsSpace) with
            | some u =>
              some (digitsToNat d1,
                if u = "khz" || u = "kh" then ratScaleNat q 1000 else q)
            | none => none
          match r5 with
          | '.' :: r6 =>
            let (d3, r7) := spanDigits r6
            if d3 = [] then finish (decToRat d2 []) r5
            else
              match finish (decToRat d2 d3) r7 with
              | some x => some x
              | none => finish (decToRat d2 []) r5
          | _ => finish (decToRat d2 []) r5
      | _ => none

/-- re.search of the frequency pattern. -/
def searchFreq : List Char → Option (Nat × ℚ)
  | [] => none
  | c :: cs =>
    match tryFreqAt (c :: cs) with
    | some q => some q
    | none => searchFreq cs

/-- DataStandardizer._standardize_spec_value: empty values normalize to the
empty string; the stripped value is unit-normalized for the power, weight
and frequency_response keys and passed through stripped otherwise. -/
def standardize_spec_value (value key : String) : String :=
  if value = "" then ""
  else
    if key = "power" then
      match searchPower (stripStr value).data with
      | some q => floatRepr q ++ "W"
      | none => stripStr value
    else if key = "weight" then
      match searchWeight (stripStr value).data with
      | some q => format1f q ++ "kg"
      | none => stripStr value
    else if key = "frequency_response" then
      match searchFreq (stripStr value).data with
      | some p => toString p.1 ++ "Hz - " ++ toString (ratTrunc p.2) ++ "Hz"
      | none => stripStr value
    else stripStr value

/-- Python dict assignment d[k] = v on an insertion-ordered association
list: an existing key keeps its position with the value replaced, a new key
is appended. -/
def dictInsert {α : Type} (k : String) (v : α) :
    List (String × α) → List (String × α)
  | [] => [(k, v)]
  | (k', v') :: rest =>
    if k' = k then (k', v) :: rest else (k', v') :: dictInsert k v rest

/-- DataStandardizer._standardize_specifications: each pair is key- and
value-normalized and written into a fresh dict in iteration order. -/
def standardize_specifications (specs : List (String × String)) :
    List (String × String) :=
  specs.foldl (fun acc p =>
    dictInsert (standardize_spec_key p.1)
      (standardize_spec_value p.2 (standardize_spec_key p.1)) acc) []

/-! ## Data model (src/data_extractor.py, src/data_standardizer.py) -/

/-- EquipmentItem from src/data_extractor.py. -/
structure EquipmentItem where
  manufacturer : String
  model : String
  quantity : Int
  equipment_type : String
  category : String
  venue : String
  specifications : List (String × String)
  source_document : String
  confidence_score : ℚ
deriving DecidableEq, Repr

/-- StandardizedEquipment from src/data_standardizer.py. -/
structure StandardizedEquipment where
  id : String
  manufacturer : String
  model : String
  quantity : Int
  equipment_type : String
  category : String
  venue : String
  specifications : List (String × String)
  features : List String
  applications : List String
  compatibility : List String
  source_documents : List String
  confidence_score : ℚ
  standardization_notes : List String
deriving DecidableEq, Repr

/-! ## Record Standardizer (src/data_standardizer.py lines 70-119, 314-321) -/

/-- Identity-key transformation applied by _generate_item_id to the joined
lowercased string: non-word characters become underscores, underscore runs
collapse, and leading and trailing underscores are stripped. -/
def idFromString (s : String) : String :=
  let s2 := collapseRuns (fun c => c = '_') '_'
    (s.data.map fun c => if isWordChar c then c else '_')
  String.mk ((s2.dropWhile (fun c => c = '_')).reverse.dropWhile
    (fun c => c = '_')).reverse

/-- DataStandardizer._generate_item_id. -/
def generate_item_id (manufacturer model venue : String) : String :=
  idFromString (toLowerStr (manufacturer ++ "_" ++ model ++ "_" ++ venue))

/-- DataStandardizer._standardize_single_item.  The source returns Optional
but every path produces a record; the try/except around its call site is
modelled separately at the batch level. -/
def standardize_single_item (item : EquipmentItem) : StandardizedEquipment :=
  let sm := standardize_manufacturer item.manufacturer
  let smo := standardize_model item.model
  let sc := standardize_category item.category item.equipment_type
  let st := standardize_equipment_type item.equipment_type sc
  { id := generate_item_id sm smo item.venue
    manufacturer := sm
    model := smo
    quantity := item.quantity
    equipment_type := st
    category := sc
    venue := item.venue
    specifications := standardize_specifications item.specifications
    features := []
    applications := []
    compatibility := []
    source_documents := [item.source_document]
    confidence_score := item.confidence_score
    standardization_notes :=
      (if sm ≠ item.manufacturer then
        ["Manufacturer normalized: " ++ item.manufacturer ++ " -> " ++ sm] else []) ++
      (if smo ≠ item.model then
        ["Model normalized: " ++ item.model ++ " -> " ++ smo] else []) ++
      (if sc ≠ item.category then
        ["Category normalized: " ++ item.category ++ " -> " ++ sc] else []) ++
      (if st ≠ item.equipment_type then
        ["Equipment type normalized: " ++ item.equipment_type ++ " -> " ++ st] else []) }

/-! ## Deduplicator/Merger (src/data_standardizer.py lines 323-355) -/

/-- The merge key of _merge_duplicate_items: the lowercased underscore-joined
manufacturer, model and venue.  Unlike the identity key it is not stripped
of non-word characters. -/
def mergeKey (r : StandardizedEquipment) : String :=
  toLowerStr (r.manufacturer ++ "_" ++ r.model ++ "_" ++ r.venue)

/-- Merge of source document lists: the source extends and rebuilds through
a Python set, whose order is unspecified; it is modelled as first-occurrence
order of the concatenation.  No claim depends on this order. -/
def setUnionDocs (a b : List String) : List String :=
  (a ++ b).foldl (fun acc d => if acc.contains d then acc else acc ++ [d]) []

/-- Fold of a later duplicate into the stored record, as the merge loop
mutates it: quantity accumulates, specifications update right-biased,
source documents union, notes concatenate, confidence takes the maximum. -/
def merge2 (ex it : StandardizedEquipment) : StandardizedEquipment :=
  { ex with
    quantity := ex.quantity + it.quantity
    specifications :=
      it.specifications.foldl (fun acc p => dictInsert p.1 p.2 acc) ex.specifications
    source_documents := setUnionDocs ex.source_documents it.source_documents
    standardization_notes := ex.standardization_notes ++ it.standardization_notes
    confidence_score := pyMax ex.confidence_score it.confidence_score }

/-- In-place value update of the merge accumulator at a key. -/
def updateAssoc (k : String) (it : StandardizedEquipment) :
    List (String × StandardizedEquipment) → List (String × StandardizedEquipment)
  | [] => []
  | (k', r) :: rest =>
    if k' = k then (k', merge2 r it) :: rest else (k', r) :: updateAssoc k it rest

/-- The merge loop of _merge_duplicate_items over the insertion-ordered
dict accumulator. -/
def mergeAux : List (String × StandardizedEquipment) → List StandardizedEquipment →
    List (String × StandardizedEquipment)
  | acc, [] => acc
  | acc, it :: rest =>
    if (acc.map Prod.fst).contains (mergeKey it) then
      mergeAux (updateAssoc (mergeKey it) it acc) rest
    else mergeAux (acc ++ [(mergeKey it, it)]) rest

/-- DataStandardizer._merge_duplicate_items. -/
def merge_duplicate_items (items : List StandardizedEquipment) :
    List StandardizedEquipment :=
  (mergeAux [] items).map Prod.snd

/-! ## Per-venue batch loop (src/data_standardizer.py lines 51-66) -/

/-- The per-item loop of standardize_equipment_data for one venue: each raw
record is standardized inside try/except, a failure (modelled by the Except
error of the supplied per-record function) is logged and dropped, successes
are collected in order.  Instantiating f with Except.ok after
standardize_single_item gives the non-failing code path. -/
def collectStandardized (f : EquipmentItem → Except Unit StandardizedEquipment) :
    List EquipmentItem → List StandardizedEquipment
  | [] => []
  | it :: rest =>
    match f it with
    | Except.ok r => r :: collectStandardized f rest
    | Except.error _ => collectStandardized f rest

/-- One venue's pipeline under a fallible per-record standardizer: collect
the surviving records, then merge duplicates. -/
def standardizeVenueWith (f : EquipmentItem → Except Unit StandardizedEquipment)
    (items : List EquipmentItem) : List StandardizedEquipment :=
  merge_duplicate_items (collectStandardized f items)

/-! ## Validator (src/data_standardizer.py lines 425-451) -/

/-- The per-record checks of validate_standardized_data, in source order;
each check appends its issue string independently. -/
def validate_item (item : StandardizedEquipment) : List String :=
  (if item.manufacturer = "" ∨ item.manufacturer = "Unknown" then
    ["Missing manufacturer for item: " ++ item.id] else []) ++
  (if item.model = "" ∨ item.model = "Unknown" then
    ["Missing model for item: " ++ item.id] else []) ++
  (if item.quantity ≤ 0 then
    ["Invalid quantity for item: " ++ item.id] else []) ++
  (if ¬ (standardized_categories.contains item.category) ∧ item.category ≠ "other" then
    ["Invalid category \x27" ++ item.category ++ "\x27 for item: " ++ item.id] else []) ++
  (if item.confidence_score < mkRat 3 10 then
    ["Low confidence score (" ++ floatRepr item.confidence_score ++ ") for item: " ++
      item.id] else [])

/-- One venue's entry of the validation report: the concatenation of each
record's issues in record order. -/
def validate_venue (items : List StandardizedEquipment) : List String :=
  items.foldl (fun acc it => acc ++ validate_item it) []

/-! ## Pre-standardization grouping (src/data_extractor.py lines 346-372) -/

/-- The grouping key of _deduplicate_equipment: lowercased manufacturer,
model and category joined by underscores. -/
def rawKey (it : EquipmentItem) : String :=
  toLowerStr it.manufacturer ++ "_" ++ toLowerStr it.model ++ "_" ++
    toLowerStr it.category

/-- Fold of a later raw duplicate into the stored record: quantity
accumulates, specifications update right-biased, confidence takes the
maximum; every other field, the source document included, is untouched. -/
def rawMerge2 (ex it : EquipmentItem) : EquipmentItem :=
  { ex with
    quantity := ex.quantity + it.quantity
    specifications :=
      it.specifications.foldl (fun acc p => dictInsert p.1 p.2 acc) ex.specifications
    confidence_score := pyMax ex.confidence_score it.confidence_score }

/-- In-place value update of the grouping accumulator at a key. -/
def rawUpdateAssoc (k : String) (it : EquipmentItem) :
    List (String × EquipmentItem) → List (String × EquipmentItem)
  | [] => []
  | (k', r) :: rest =>
    if k' = k then (k', rawMerge2 r it) :: rest else (k', r) :: rawUpdateAssoc k it rest

/-- The grouping loop of _deduplicate_equipment. -/
def rawAux : List (String × EquipmentItem) → List EquipmentItem →
    List (String × EquipmentItem)
  | acc, [] => acc
  | acc, it :: rest =>
    if (acc.map Prod.fst).contains (rawKey it) then
      rawAux (rawUpdateAssoc (rawKey it) it acc) rest
    else rawAux (acc ++ [(rawKey it, it)]) rest

/-- DataExtractor._deduplicate_equipment. -/
def deduplicate_equipment (items : List EquipmentItem) : List EquipmentItem :=
  (rawAux [] items).map Prod.snd

/-- First-occurrence deduplication of a key list, used to state grouping
properties. -/
def dedupKeys (ks : List String) : List String :=
  ks.foldl (fun acc k => if acc.contains k then acc else acc ++ [k]) []

/-- The six fields of a raw record untouched by the grouping fold. -/
def rawFrame (i : EquipmentItem) :
    String × String × String × String × String × String :=
  (i.manufacturer, i.model, i.equipment_type, i.category, i.venue,
    i.source_document)

/-! ## Concrete instances used by the claim theorems and witnesses -/

/-- Raw record Shure SM-58 (hyphenated model), venue X. -/
def c1raw1 : EquipmentItem :=
  ⟨"Shure", "SM-58", 2, "microphone", "sound", "X", [], "doc1", mkRat 9 10⟩

/-- Raw record Shure SM 58 (spaced model), venue X. -/
def c1raw2 : EquipmentItem :=
  ⟨"Shure", "SM 58", 3, "microphone", "sound", "X", [], "doc2", mkRat 8 10⟩

/-- Standardized record with merge key shure_sm58_x. -/
def c1wA : StandardizedEquipment :=
  ⟨"shure_sm58_x", "Shure", "SM58", 1, "Microphone", "sound", "X", [], [], [],
    [], ["doc1"], mkRat 9 10, []⟩

/-- Standardized record with the same merge key as c1wA. -/
def c1wB : StandardizedEquipment :=
  ⟨"shure_sm58_x", "SHURE", "sm58", 2, "Microphone", "sound", "X", [], [], [],
    [], ["doc2"], mkRat 8 10, []⟩

/-- Raw record ("Shure", "SM58") of the identity-key stability scenario. -/
def c4raw1 (q : Int) : EquipmentItem :=
  ⟨"Shure", "SM58", q, "microphone", "sound", "X", [], "doc1", mkRat 9 10⟩

/-- Raw record ("SHURE", "sm58") of the identity-key stability scenario. -/
def c4raw2 (q : Int) : EquipmentItem :=
  ⟨"SHURE", "sm58", q, "microphone", "sound", "X", [], "doc2", mkRat 8 10⟩

/-- Validator scenario record with a nonempty non-Unknown model. -/
def c5ok : StandardizedEquipment :=
  ⟨"itemid", "Unknown", "SM58", 0, "Microphone", "sound", "X", [], [], [], [],
    ["doc1"], mkRat 2 10, []⟩

/-- Validator scenario record with an empty model. -/
def c5bad : StandardizedEquipment :=
  ⟨"itemid", "Unknown", "", 0, "Microphone", "sound", "X", [], [], [], [],
    ["doc1"], mkRat 2 10, []⟩

/-- Arbitrary raw record used as a failing input in the batch-isolation
witness. -/
def c7bad : EquipmentItem := ⟨"", "", 0, "", "", "V", [], "doc1", mkRat 0 1⟩

/-- Raw records sharing the grouping key of the pre-standardization pass. -/
def c10raw1 : EquipmentItem :=
  ⟨"Shure", "SM58", 2, "microphone", "sound", "X", [("Power", "5W")], "docA", mkRat 9 10⟩

/-- Later duplicate of c10raw1 with a different source document. -/
def c10raw2 : EquipmentItem :=
  ⟨"SHURE", "sm58", 3, "wireless mic", "sound", "X", [("Weight", "1 kg")], "docB", mkRat 8 10⟩

/-! ## Helper lemmas -/

/-- The merge key reads only fields the merge fold leaves unchanged. -/
theorem mergeKey_merge2 (ex it : StandardizedEquipment) :
    mergeKey (merge2 ex it) = mergeKey ex := rfl

/-- Updating a value in place does not change the key sequence. -/
theorem updateAssoc_keys (k : String) (it : StandardizedEquipment)
    (acc : List (String × StandardizedEquipment)) :
    (updateAssoc k it acc).map Prod.fst = acc.map Prod.fst := by
  induction acc with
  | nil => rfl
  | cons p rest ih =>
    obtain ⟨pk, pr⟩ := p
    by_cases h : pk = k <;> simp [updateAssoc, h, ih]

/-- Every accumulator entry of the merge fold is keyed by its record's
merge key, preserved by in-place updates. -/
theorem updateAssoc_entry_key (k : String) (it : StandardizedEquipment)
    (acc : List (String × StandardizedEquipment))
    (hacc : ∀ p ∈ acc, p.1 = mergeKey p.2) :
    ∀ p ∈ updateAssoc k it acc, p.1 = mergeKey p.2 := by
  induction acc with
  | nil => intro p hp; cases hp
  | cons q rest ih =>
    obtain ⟨qk, qr⟩ := q
    intro p hp
    by_cases h : qk = k
    · simp only [updateAssoc, if_pos h] at hp
      rcases List.mem_cons.mp hp with rfl | hp'
      · simpa [mergeKey_merge2] using hacc (qk, qr) (List.mem_cons_self _ _)
      · exact hacc p (List.mem_cons_of_mem _ hp')
    · simp only [updateAssoc, if_neg h] at hp
      rcases List.mem_cons.mp hp with rfl | hp'
      · exact hacc _ (List.mem_cons_self _ _)
      · exact ih (fun p hp => hacc p (List.mem_cons_of_mem _ hp)) p hp'

/-- Invariant of the merge loop: each stored pair is keyed by its record's
merge key. -/
theorem mergeAux_entry_key (l : List StandardizedEquipment)
    (acc : List (String × StandardizedEquipment))
    (hacc : ∀ p ∈ acc, p.1 = mergeKey p.2) :
    ∀ p ∈ mergeAux acc l, p.1 = mergeKey p.2 := by
  induction l generalizing acc with
  | nil => exact hacc
  | cons it rest ih =>
    simp only [mergeAux]
    by_cases h : (acc.map Prod.fst).contains (mergeKey it)
    · rw [if_pos h]
      exact ih _ (updateAssoc_entry_key _ _ _ hacc)
    · rw [if_neg h]
      refine ih _ ?_
      intro p hp
      rcases List.mem_append.mp hp with hp' | hp'
      · exact hacc p hp'
      · rw [List.mem_singleton] at hp'
        subst hp'
        rfl

/-- Key sequence computed by the merge loop: a first-occurrence
deduplication of the incoming merge keys, continuing from the accumulator's
keys. -/
theorem mergeAux_keys (l : List StandardizedEquipment)
    (acc : List (String × StandardizedEquipment)) :
    (mergeAux acc l).map Prod.fst =
      l.foldl (fun ks it =>
        if ks.contains (mergeKey it) then ks else ks ++ [mergeKey it])
        (acc.map Prod.fst) := by
  induction l generalizing acc with
  | nil => rfl
  | cons it rest ih =>
    simp only [mergeAux, List.foldl_cons]
    by_cases h : (acc.map Prod.fst).contains (mergeKey it)
    · rw [if_pos h, if_pos h, ih, updateAssoc_keys]
    · rw [if_neg h, if_neg h, ih, List.map_append]
      rfl

/-- Key sequence of a dict assignment: unchanged for an existing key, the
key appended otherwise. -/
theorem dictInsert_keys {α : Type} (k : String) (v : α) (acc : List (String × α)) :
    (dictInsert k v acc).map Prod.fst =
      if k ∈ acc.map Prod.fst then acc.map Prod.fst
      else acc.map Prod.fst ++ [k] := by
  induction acc with
  | nil => simp [dictInsert]
  | cons p rest ih =>
    obtain ⟨pk, pv⟩ := p
    by_cases h : pk = k
    · subst h
      simp [dictInsert]
    · have h' : ¬ k = pk := fun e => h e.symm
      simp only [dictInsert, if_neg h, List.map_cons, ih]
      by_cases hm : k ∈ rest.map Prod.fst <;>
        simp [List.mem_cons, h', hm]

/-- The assigned key is always among the resulting keys. -/
theorem mem_keys_dictInsert_self {α : Type} (k : String) (v : α)
    (acc : List (String × α)) : k ∈ (dictInsert k v acc).map Prod.fst := by
  rw [dictInsert_keys]
  by_cases h : k ∈ acc.map Prod.fst <;> simp [h]

/-- Existing keys survive a dict assignment. -/
theorem mem_keys_dictInsert_of_mem {α : Type} (k k' : String) (v : α)
    (acc : List (String × α)) (h : k' ∈ acc.map Prod.fst) :
    k' ∈ (dictInsert k v acc).map Prod.fst := by
  rw [dictInsert_keys]
  by_cases hm : k ∈ acc.map Prod.fst <;> simp [hm, h]

/-- Dict assignment preserves distinctness of keys. -/
theorem nodup_keys_dictInsert {α : Type} (k : String) (v : α)
    (acc : List (String × α)) (h : (acc.map Prod.fst).Nodup) :
    ((dictInsert k v acc).map Prod.fst).Nodup := by
  rw [dictInsert_keys]
  by_cases hm : k ∈ acc.map Prod.fst
  · simpa [hm]
  · rw [if_neg hm]
    exact List.Nodup.append h (List.nodup_singleton k)
      (fun a ha hk => hm (List.mem_singleton.mp hk ▸ ha))

/-- Every canonical key of a processed pair appears among the keys of the
specification-normalization fold. -/
theorem specFold_key_mem (l : List (String × String))
    (acc : List (String × String)) (K : String)
    (h : K ∈ acc.map Prod.fst ∨ ∃ p ∈ l, standardize_spec_key p.1 = K) :
    K ∈ ((l.foldl (fun acc p => dictInsert (standardize_spec_key p.1)
        (standardize_spec_value p.2 (standardize_spec_key p.1)) acc) acc).map
        Prod.fst) := by
  induction l generalizing acc with
  | nil =>
    rcases h with h | ⟨p, hp, _⟩
    · exact h
    · cases hp
  | cons p rest ih =>
    rw [List.foldl_cons]
    apply ih
    rcases h with h | ⟨q, hq, hK⟩
    · exact Or.inl (mem_keys_dictInsert_of_mem _ _ _ _ h)
    · rcases List.mem_cons.mp hq with rfl | hq'
      · exact Or.inl (hK ▸ mem_keys_dictInsert_self _ _ _)
      · exact Or.inr ⟨q, hq', hK⟩

/-- The specification-normalization fold keeps its keys distinct. -/
theorem specFold_nodup (l : List (String × String))
    (acc : List (String × String)) (h : (acc.map Prod.fst).Nodup) :
    ((l.foldl (fun acc p => dictInsert (standardize_spec_key p.1)
        (standardize_spec_value p.2 (standardize_spec_key p.1)) acc) acc).map
        Prod.fst).Nodup := by
  induction l generalizing acc with
  | nil => exact h
  | cons p rest ih =>
    rw [List.foldl_cons]
    exact ih _ (nodup_keys_dictInsert _ _ _ h)

/-- The per-item collection loop distributes over concatenation. -/
theorem collectStandardized_append
    (f : EquipmentItem → Except Unit StandardizedEquipment)
    (l1 l2 : List EquipmentItem) :
    collectStandardized f (l1 ++ l2) =
      collectStandardized f l1 ++ collectStandardized f l2 := by
  induction l1 with
  | nil => rfl
  | cons it rest ih =>
    simp only [List.cons_append, collectStandardized]
    rcases hfi : f it with e | r <;> simp [hfi, ih]

/-- Direct alias hit of the manufacturer normalizer. -/
theorem std_mfr_alias (M c : String) (hne : M ≠ "")
    (h1 : mfrAliasLookup (toLowerStr (stripStr M)) = some c) :
    standardize_manufacturer M = titleStr c := by
  unfold standardize_manufacturer
  rw [if_neg hne]
  split
  next name heq =>
    rw [h1] at heq
    injection heq with h
    rw [h]
  next heq =>
    rw [h1] at heq
    exact Option.noConfusion heq

/-- Direct alias hit of the equipment-type normalizer. -/
theorem std_type_direct (ty cat : String) (m : List (String × String))
    (hty : ty ≠ "")
    (hm : assocFind cat equipment_type_mappings = some m)
    (hv : assocFind (toLowerStr (stripStr ty)) m = some ty) :
    standardize_equipment_type ty cat = ty := by
  unfold standardize_equipment_type
  rw [if_neg hty]
  split
  next m' heq =>
    rw [hm] at heq
    injection heq with h
    subst h
    split
    next v hv2 =>
      rw [hv] at hv2
      injection hv2 with h2
      exact h2.symm
    next hv2 =>
      rw [hv] at hv2
      exact Option.noConfusion hv2
  next heq =>
    rw [hm] at heq
    exact Option.noConfusion heq

/-- The grouping key reads only fields the raw fold leaves unchanged. -/
theorem rawKey_rawMerge2 (ex it : EquipmentItem) :
    rawKey (rawMerge2 ex it) = rawKey ex := rfl

/-- The frame fields are untouched by the raw fold. -/
theorem rawFrame_rawMerge2 (ex it : EquipmentItem) :
    rawFrame (rawMerge2 ex it) = rawFrame ex := rfl

/-- Updating a value in place does not change the raw key sequence. -/
theorem rawUpdateAssoc_keys (k : String) (it : EquipmentItem)
    (acc : List (String × EquipmentItem)) :
    (rawUpdateAssoc k it acc).map Prod.fst = acc.map Prod.fst := by
  induction acc with
  | nil => rfl
  | cons p rest ih =>
    obtain ⟨pk, pr⟩ := p
    by_cases h : pk = k <;> simp [rawUpdateAssoc, h, ih]

/-- Origin of an entry of the updated raw accumulator: it is a stored pair,
possibly with the duplicate folded into its record. -/
theorem rawUpdateAssoc_mem (k : String) (it : EquipmentItem)
    (acc : List (String × EquipmentItem)) (p : String × EquipmentItem)
    (hp : p ∈ rawUpdateAssoc k it acc) :
    ∃ q ∈ acc, q.1 = p.1 ∧ (p = q ∨ (q.1 = k ∧ p.2 = rawMerge2 q.2 it)) := by
  induction acc with
  | nil => cases hp
  | cons e rest ih =>
    obtain ⟨ek, er⟩ := e
    by_cases h : ek = k
    · simp only [rawUpdateAssoc, if_pos h] at hp
      rcases List.mem_cons.mp hp with rfl | hp'
      · exact ⟨(ek, er), List.mem_cons_self _ _, rfl, Or.inr ⟨h, rfl⟩⟩
      · exact ⟨p, List.mem_cons_of_mem _ hp', rfl, Or.inl rfl⟩
    · simp only [rawUpdateAssoc, if_neg h] at hp
      rcases List.mem_cons.mp hp with rfl | hp'
      · exact ⟨_, List.mem_cons_self _ _, rfl, Or.inl rfl⟩
      · obtain ⟨q, hq, hk, hcase⟩ := ih hp'
        exact ⟨q, List.mem_cons_of_mem _ hq, hk, hcase⟩

/-- Invariant of the raw grouping loop relating the accumulator to the
already-processed records: every processed key is stored, every stored pair
is keyed by its record's key and keeps the frame fields of the first
processed record with that key. -/
def rawInv (processed : List EquipmentItem)
    (acc : List (String × EquipmentItem)) : Prop :=
  (∀ i ∈ processed, rawKey i ∈ acc.map Prod.fst) ∧
  (∀ p ∈ acc, p.1 = rawKey p.2 ∧
    ∃ i, processed.find? (fun j => rawKey j == p.1) = some i ∧
      rawFrame p.2 = rawFrame i)

/-- One step of the raw grouping loop preserves the invariant. -/
theorem rawInv_step (processed : List EquipmentItem)
    (acc : List (String × EquipmentItem)) (it : EquipmentItem)
    (h : rawInv processed acc) :
    rawInv (processed ++ [it])
      (if (acc.map Prod.fst).contains (rawKey it) then
        rawUpdateAssoc (rawKey it) it acc
       else acc ++ [(rawKey it, it)]) := by
  obtain ⟨h1, h2⟩ := h
  by_cases hc : (acc.map Prod.fst).contains (rawKey it)
  · rw [if_pos hc]
    constructor
    · intro i hi
      rw [rawUpdateAssoc_keys]
      rcases List.mem_append.mp hi with hi' | hi'
      · exact h1 i hi'
      · rw [List.mem_singleton] at hi'
        subst hi'
        exact List.elem_iff.mp hc
    · intro p hp
      obtain ⟨q, hq, hk1, hcase⟩ := rawUpdateAssoc_mem _ _ _ p hp
      obtain ⟨hqk, i, hfind, hframe⟩ := h2 q hq
      have hpk : p.1 = rawKey p.2 := by
        rcases hcase with rfl | ⟨_, hp2⟩
        · exact hqk
        · rw [hp2, rawKey_rawMerge2, ← hqk, hk1]
      refine ⟨hpk, i, ?_, ?_⟩
      · rw [List.find?_append, ← hk1, hfind]
        rfl
      · rcases hcase with rfl | ⟨_, hp2⟩
        · exact hframe
        · rw [hp2, rawFrame_rawMerge2]
          exact hframe
  · rw [if_neg hc]
    constructor
    · intro i hi
      rw [List.map_append]
      rcases List.mem_append.mp hi with hi' | hi'
      · exact List.mem_append_left _ (h1 i hi')
      · rw [List.mem_singleton] at hi'
        subst hi'
        apply List.mem_append_right
        simp
    · intro p hp
      rcases List.mem_append.mp hp with hp' | hp'
      · obtain ⟨hpk, i, hfind, hframe⟩ := h2 p hp'
        exact ⟨hpk, i, by rw [List.find?_append, hfind]; rfl, hframe⟩
      · rw [List.mem_singleton] at hp'
        subst hp'
        refine ⟨rfl, it, ?_, rfl⟩
        have hnone : processed.find? (fun j => rawKey j == rawKey it) = none := by
          rw [List.find?_eq_none]
          intro j hj hbeq
          have hmem := h1 j hj
          rw [show rawKey j = rawKey it from by simpa using hbeq] at hmem
          exact hc (List.elem_iff.mpr hmem)
        rw [List.find?_append, hnone]
        simp

/-- The raw grouping loop preserves the invariant across a batch. -/
theorem rawAux_inv (l : List EquipmentItem) (processed : List EquipmentItem)
    (acc : List (String × EquipmentItem)) (h : rawInv processed acc) :
    rawInv (processed ++ l) (rawAux acc l) := by
  induction l generalizing processed acc with
  | nil => simpa using h
  | cons it rest ih =>
    have h' := rawInv_step processed acc it h
    simp only [rawAux]
    by_cases hc : (acc.map Prod.fst).contains (rawKey it)
    · rw [if_pos hc]
      rw [if_pos hc] at h'
      have hrec := ih (processed ++ [it]) _ h'
      simpa [List.append_assoc] using hrec
    · rw [if_neg hc]
      rw [if_neg hc] at h'
      have hrec := ih (processed ++ [it]) _ h'
      simpa [List.append_assoc] using hrec

/-- Merging exactly two records that share a merge key folds them into the
single record obtained by the merge fold. -/
theorem merge_pair (a b : StandardizedEquipment) (h : mergeKey b = mergeKey a) :
    merge_duplicate_items [a, b] = [merge2 a b] := by
  simp [merge_duplicate_items, mergeAux, updateAssoc, h]

/-! ## Claim theorems -/

/-- C3: specification value canonicalization maps the power value 1.5kW to
1500.0W, the power value 2200W to 2200.0W, and the weight value 10 lbs to
4.5kg, for inputs under the canonical keys power and weight. -/
theorem C3_spec_value_round_trip :
    standardize_spec_value "1.5kW" "power" = "1500.0W" ∧
    standardize_spec_value "2200W" "power" = "2200.0W" ∧
    standardize_spec_value "10 lbs" "weight" = "4.5kg" :=
  ⟨rfl, rfl, rfl⟩

/-- C6: category canonicalization with the empty category and equipment
type LED Moving Head Wash returns lighting, reached through keyword
inference, which selects the first category in declaration order whose
keyword set has a substring hit in the lowercased type. -/
theorem C6_category_fallback :
    standardize_category "" "LED Moving Head Wash" = "lighting" ∧
    infer_category_from_type "LED Moving Head Wash" = some "lighting" :=
  ⟨rfl, rfl⟩

/-- C8: the Record Standardizer copies quantity and confidence score
verbatim into the standardized record, whatever their values, so negative
or zero quantities and out-of-range confidence scores appear unchanged. -/
theorem C8_verbatim_copies (item : EquipmentItem) :
    (standardize_single_item item).quantity = item.quantity ∧
    (standardize_single_item item).confidence_score = item.confidence_score :=
  ⟨rfl, rfl⟩

/-- C1 counterexample: the two standardized records obtained from c1raw1
and c1raw2 have equal identity keys, yet the post-standardization merge
keeps them as two output records, because the merge groups by the
unstripped lowercased manufacturer-model-venue string, not by the identity
key of section 4.3. -/
theorem C1_counterexample :
    (standardize_single_item c1raw1).id = (standardize_single_item c1raw2).id ∧
    (merge_duplicate_items [standardize_single_item c1raw1,
      standardize_single_item c1raw2]).length = 2 :=
  ⟨rfl, rfl⟩

/-- C2 counterexample: the manufacturer Robey is itself an output of the
Field Normalizer (on the raw value Robey Ltd), yet normalizing it a second
time yields Robe through the fuzzy-match branch, so canonical manufacturer
forms are not fixed points. -/
theorem C2_counterexample :
    standardize_manufacturer "Robey Ltd" = "Robey" ∧
    standardize_manufacturer "Robey" = "Robe" ∧ ("Robe" : String) ≠ "Robey" :=
  ⟨rfl, rfl, by decide⟩

/-- C4: the raw records (Shure, SM58) and (SHURE, sm58) in venue X are
standardized to the same identity key, and merging the venue list folds
them into a single record whose quantity is the sum of the two
quantities. -/
theorem C4_identity_key_stability (q1 q2 : Int) :
    (standardize_single_item (c4raw1 q1)).id =
      (standardize_single_item (c4raw2 q2)).id ∧
    (merge_duplicate_items [standardize_single_item (c4raw1 q1),
        standardize_single_item (c4raw2 q2)]).map (fun r => r.quantity) =
      [q1 + q2] := by
  constructor
  · show generate_item_id (standardize_manufacturer "Shure")
        (standardize_model "SM58") "X" =
      generate_item_id (standardize_manufacturer "SHURE")
        (standardize_model "sm58") "X"
    decide
  · rw [merge_pair]
    · rfl
    · show toLowerStr (standardize_manufacturer "SHURE" ++ "_" ++
          standardize_model "sm58" ++ "_" ++ "X") =
        toLowerStr (standardize_manufacturer "Shure" ++ "_" ++
          standardize_model "SM58" ++ "_" ++ "X")
      decide

/-- C5 counterexample: the record c5bad satisfies every hypothesis of the
claim as stated (manufacturer Unknown, quantity 0, confidence 0.2, a model
that is not the string Unknown, a category in the fixed set), yet the
Validator produces four issues for it, because the empty model also
triggers the missing-model rule. -/
theorem C5_counterexample :
    c5bad.manufacturer = "Unknown" ∧ c5bad.quantity = 0 ∧
    c5bad.confidence_score = mkRat 2 10 ∧ c5bad.model ≠ "Unknown" ∧
    (standardized_categories.contains c5bad.category ∨
      c5bad.category = "other") ∧
    (validate_item c5bad).length ≠ 3 := by
  exact ⟨rfl, rfl, rfl, by decide, Or.inl (by decide), by decide⟩

/-- C1 (amended): the post-standardization merge groups records by the
lowercased underscore-joined manufacturer-model-venue string (without the
identity key's non-word stripping): the output's merge keys are exactly the
first-occurrence deduplication of the input's merge keys, so two records
fold iff their merge keys agree; and since the identity key is a function
of that string, records with distinct identity keys are never folded. -/
theorem C1_merge_groups_by_merge_key (items : List StandardizedEquipment) :
    (merge_duplicate_items items).map mergeKey = dedupKeys (items.map mergeKey) ∧
    ∀ r1 r2 : StandardizedEquipment, mergeKey r1 = mergeKey r2 →
      generate_item_id r1.manufacturer r1.model r1.venue =
        generate_item_id r2.manufacturer r2.model r2.venue := by
  constructor
  · have hk := mergeAux_entry_key items [] (by intro p hp; cases hp)
    have h1 : (merge_duplicate_items items).map mergeKey =
        (mergeAux [] items).map Prod.fst := by
      unfold merge_duplicate_items
      rw [List.map_map]
      exact List.map_congr_left fun p hp => (hk p hp).symm
    rw [h1, mergeAux_keys, dedupKeys, List.foldl_map]
    rfl
  · intro r1 r2 h
    exact congrArg idFromString h

/-- Witness for C1 at two concrete records sharing a merge key. -/
theorem C1_witness :
    ((merge_duplicate_items [c1wA, c1wB]).map mergeKey =
      dedupKeys ([c1wA, c1wB].map mergeKey)) ∧
    generate_item_id c1wA.manufacturer c1wA.model c1wA.venue =
      generate_item_id c1wB.manufacturer c1wB.model c1wB.venue :=
  ⟨(C1_merge_groups_by_merge_key [c1wA, c1wB]).1,
   (C1_merge_groups_by_merge_key [c1wA, c1wB]).2 c1wA c1wB (by decide)⟩

/-- C2 (amended): a second pass of the Field Normalizer returns all four
fields unchanged for records whose canonical forms come from the exact
taxonomy lookups: the manufacturer is the title-cased canonical name found
by the alias scan, the model is a fixed point of the model cleanup, the
category is one of the fixed categories, and the equipment type is found
unchanged by the direct per-category alias lookup. -/
theorem C2_exact_canonical_fields_fixed (M c mo cat ty : String)
    (h1 : mfrAliasLookup (toLowerStr (stripStr M)) = some c)
    (h2 : M = titleStr c)
    (h3 : standardize_model mo = mo)
    (h4 : cat = "lighting" ∨ cat = "sound" ∨ cat = "video")
    (h5 : typeDirectLookup cat (toLowerStr (stripStr ty)) = some ty) :
    standardize_manufacturer M = M ∧ standardize_model mo = mo ∧
    standardize_category cat ty = cat ∧
    standardize_equipment_type ty cat = ty := by
  have hne : M ≠ "" := by
    intro hM
    rw [hM] at h1
    rw [(by decide : mfrAliasLookup (toLowerStr (stripStr "")) = none)] at h1
    exact Option.noConfusion h1
  refine ⟨by rw [std_mfr_alias M c hne h1, h2], h3, ?_, ?_⟩
  · rcases h4 with rfl | rfl | rfl <;> rfl
  · rcases h4 with rfl | rfl | rfl
    · have h5' : assocFind (toLowerStr (stripStr ty)) lightingTypes = some ty := h5
      have hty : ty ≠ "" := by
        intro h
        rw [h] at h5'
        rw [(by decide :
          assocFind (toLowerStr (stripStr "")) lightingTypes = none)] at h5'
        exact Option.noConfusion h5'
      exact std_type_direct ty "lighting" lightingTypes hty rfl h5'
    · have h5' : assocFind (toLowerStr (stripStr ty)) soundTypes = some ty := h5
      have hty : ty ≠ "" := by
        intro h
        rw [h] at h5'
        rw [(by decide :
          assocFind (toLowerStr (stripStr "")) soundTypes = none)] at h5'
        exact Option.noConfusion h5'
      exact std_type_direct ty "sound" soundTypes hty rfl h5'
    · have h5' : assocFind (toLowerStr (stripStr ty)) videoTypes = some ty := h5
      have hty : ty ≠ "" := by
        intro h
        rw [h] at h5'
        rw [(by decide :
          assocFind (toLowerStr (stripStr "")) videoTypes = none)] at h5'
        exact Option.noConfusion h5'
      exact std_type_direct ty "video" videoTypes hty rfl h5'

/-- Witness for C2 at the canonical record (Shure, SM58, sound,
Microphone). -/
theorem C2_witness :
    standardize_manufacturer "Shure" = "Shure" ∧
    standardize_model "SM58" = "SM58" ∧
    standardize_category "sound" "Microphone" = "sound" ∧
    standardize_equipment_type "Microphone" "sound" = "Microphone" :=
  C2_exact_canonical_fields_fixed "Shure" "shure" "SM58" "sound" "Microphone"
    (by decide) (by decide) (by decide) (Or.inr (Or.inl rfl)) (by decide)

/-- C5 (amended): for every record with manufacturer Unknown, quantity 0,
confidence 0.2, a nonempty non-Unknown model and a category in the fixed
set or other, the Validator produces exactly the three issues for the
missing manufacturer, the invalid quantity and the low confidence score,
whose message includes the numeric score; the validator is a pure function
of the record and leaves it untouched. -/
theorem C5_validator_three_issues (r : StandardizedEquipment)
    (h1 : r.manufacturer = "Unknown") (h2 : r.quantity = 0)
    (h3 : r.confidence_score = mkRat 2 10)
    (h4 : r.model ≠ "") (h5 : r.model ≠ "Unknown")
    (h6 : standardized_categories.contains r.category ∨ r.category = "other") :
    validate_item r =
      ["Missing manufacturer for item: " ++ r.id,
       "Invalid quantity for item: " ++ r.id,
       "Low confidence score (0.2) for item: " ++ r.id] ∧
    hasSub "0.2".data "Low confidence score (0.2) for item: ".data = true := by
  have hcat : ¬ (¬ (standardized_categories.contains r.category = true) ∧
      r.category ≠ "other") := by
    rcases h6 with h | h
    · exact fun hc => hc.1 h
    · exact fun hc => hc.2 h
  have hmo : ¬ (r.model = "" ∨ r.model = "Unknown") := by
    rintro (h | h)
    · exact h4 h
    · exact h5 h
  constructor
  · unfold validate_item
    rw [h1, h2, h3]
    rw [if_pos (Or.inr rfl), if_neg hmo, if_pos (le_refl (0 : Int)),
      if_neg hcat, if_pos (by decide : mkRat 2 10 < mkRat 3 10)]
    rfl
  · decide

/-- Witness for C5 at the record c5ok. -/
theorem C5_witness :
    validate_item c5ok =
      ["Missing manufacturer for item: " ++ c5ok.id,
       "Invalid quantity for item: " ++ c5ok.id,
       "Low confidence score (0.2) for item: " ++ c5ok.id] ∧
    hasSub "0.2".data "Low confidence score (0.2) for item: ".data = true :=
  C5_validator_three_issues c5ok rfl rfl rfl (by decide) (by decide)
    (Or.inl (by decide))

/-- C7: a raw record whose standardization fails is dropped from its
venue's batch: the venue's output equals the standardization and merge of
the remaining records, so sibling records are unaffected and the batch is
never aborted. -/
theorem C7_record_failure_isolated
    (f : EquipmentItem → Except Unit StandardizedEquipment)
    (pre post : List EquipmentItem) (bad : EquipmentItem) (e : Unit)
    (h : f bad = Except.error e) :
    standardizeVenueWith f (pre ++ bad :: post) =
      standardizeVenueWith f (pre ++ post) := by
  unfold standardizeVenueWith
  rw [collectStandardized_append, collectStandardized_append]
  have hdrop : collectStandardized f (bad :: post) = collectStandardized f post := by
    simp [collectStandardized, h]
  rw [hdrop]

/-- Witness for C7 with an always-failing per-record standardizer. -/
theorem C7_witness :
    standardizeVenueWith (fun _ => Except.error ()) ([] ++ c7bad :: []) =
      standardizeVenueWith (fun _ => Except.error ()) ([] ++ []) :=
  C7_record_failure_isolated (fun _ => Except.error ()) [] [] c7bad () rfl

/-- C9: specification key canonicalization maps the empty key to the
literal string unknown, every entry with an empty key lands on the single
canonical key unknown in the output mapping, and the output mapping never
holds duplicate keys, so all such entries collide onto one entry. -/
theorem C9_empty_key_unknown :
    standardize_spec_key "" = "unknown" ∧
    (∀ (specs : List (String × String)) (v : String), ("", v) ∈ specs →
      "unknown" ∈ (standardize_specifications specs).map Prod.fst) ∧
    ∀ specs : List (String × String),
      ((standardize_specifications specs).map Prod.fst).Nodup := by
  refine ⟨rfl, ?_, ?_⟩
  · intro specs v hv
    unfold standardize_specifications
    exact specFold_key_mem specs [] "unknown" (Or.inr ⟨("", v), hv, rfl⟩)
  · intro specs
    unfold standardize_specifications
    exact specFold_nodup specs [] (by simp)

/-- Witness for C9 at a one-entry specification map with an empty key. -/
theorem C9_witness :
    standardize_spec_key "" = "unknown" ∧
    "unknown" ∈ (standardize_specifications [("", "x")]).map Prod.fst ∧
    ((standardize_specifications [("", "x")]).map Prod.fst).Nodup :=
  ⟨C9_empty_key_unknown.1,
   C9_empty_key_unknown.2.1 [("", "x")] "x" (by decide),
   C9_empty_key_unknown.2.2 [("", "x")]⟩

/-- C10: every output record of the pre-standardization grouping keeps the
manufacturer, model, equipment type, category, venue and source document of
the first input record with its grouping key; only quantity, specifications
and confidence change, and later duplicates' source documents are
discarded. -/
theorem C10_first_occurrence_frame (items : List EquipmentItem)
    (r : EquipmentItem) (hr : r ∈ deduplicate_equipment items) :
    ∃ i, items.find? (fun j => rawKey j == rawKey r) = some i ∧
      r.manufacturer = i.manufacturer ∧ r.model = i.model ∧
      r.equipment_type = i.equipment_type ∧ r.category = i.category ∧
      r.venue = i.venue ∧ r.source_document = i.source_document := by
  have h0 : rawInv [] [] :=
    ⟨fun i hi => absurd hi (List.not_mem_nil i),
     fun p hp => absurd hp (List.not_mem_nil p)⟩
  have hinv : rawInv items (rawAux [] items) := by
    simpa using rawAux_inv items [] [] h0
  obtain ⟨p, hp, hpr⟩ := List.mem_map.mp hr
  obtain ⟨hpk, i, hfind, hframe⟩ := hinv.2 p hp
  subst hpr
  refine ⟨i, ?_, ?_⟩
  · rw [hpk] at hfind
    exact hfind
  · simp only [rawFrame, Prod.mk.injEq] at hframe
    exact hframe

/-- Witness for C10 at a two-record batch sharing a grouping key. -/
theorem C10_witness :
    ∃ i, [c10raw1, c10raw2].find?
        (fun j => rawKey j == rawKey (rawMerge2 c10raw1 c10raw2)) = some i ∧
      (rawMerge2 c10raw1 c10raw2).manufacturer = i.manufacturer ∧
      (rawMerge2 c10raw1 c10raw2).model = i.model ∧
      (rawMerge2 c10raw1 c10raw2).equipment_type = i.equipment_type ∧
      (rawMerge2 c10raw1 c10raw2).category = i.category ∧
      (rawMerge2 c10raw1 c10raw2).venue = i.venue ∧
      (rawMerge2 c10raw1 c10raw2).source_document = i.source_document :=
  C10_first_occurrence_frame [c10raw1, c10raw2] (rawMerge2 c10raw1 c10raw2)
    (by decide)
